import Mathlib

/-!
Verification of the stumptown-deployer core against its specification.

The definitions below are a shallow embedding of the Python sources
(deployer/upload.py, deployer/kumadownloader.py, deployer/main.py):
Python dicts become insertion-ordered association lists, machine behaviour
such as str.split and pathlib suffix extraction is reimplemented, MD5 is
implemented over Nat arithmetic modulo 2^32, and fallible operations
return Except.  Each claim of the specification is then settled by a
theorem about these definitions.
-/

/-! ## Insertion-ordered dictionaries (Python dict semantics)

A Python dict preserves insertion order; updating an existing key keeps
its position and replaces the value.  Keys here are strings. -/

def lookupS {α : Type} : List (String × α) → String → Option α
  | [], _ => none
  | (k, v) :: rest, key => if k = key then some v else lookupS rest key

def dictInsert {α : Type} (d : List (String × α)) (key : String) (v : α) :
    List (String × α) :=
  match d with
  | [] => [(key, v)]
  | (k, w) :: rest =>
    if k = key then (k, v) :: rest else (k, w) :: dictInsert rest key v

/-- Python dict.update: fold the right dict into the left one. -/
def dictUpdate {α : Type} (d1 d2 : List (String × α)) : List (String × α) :=
  d2.foldl (fun a kv => dictInsert a kv.1 kv.2) d1

/-! ## Python str.split() (whitespace splitting)

Models CPython str.split with no arguments: runs of whitespace separate
the tokens, and leading or trailing whitespace produces no empty token. -/

def isPySpace (c : Char) : Bool :=
  c = ' ' || c = '\t' || c = '\n' || c = '\x0b' || c = '\x0c' || c = '\r'

def splitWSAux : List Char → List Char → List (List Char)
  | [], cur => if cur.isEmpty then [] else [cur.reverse]
  | c :: rest, cur =>
    if isPySpace c then
      if cur.isEmpty then splitWSAux rest []
      else cur.reverse :: splitWSAux rest []
    else splitWSAux rest (c :: cur)

def splitWS (l : List Char) : List (List Char) := splitWSAux l []

/-! ## MD5 (hashlib.md5), over Nat arithmetic modulo 2^32

A byte is a Nat below 256; a word is a Nat below 2^32.  The hexdigest is
produced in lowercase, as in Python. -/

def utf8Char (c : Char) : List Nat :=
  let n := c.toNat
  if n < 128 then [n]
  else if n < 2048 then [192 + n / 64, 128 + n % 64]
  else if n < 65536 then [224 + n / 4096, 128 + n / 64 % 64, 128 + n % 64]
  else [240 + n / 262144, 128 + n / 4096 % 64, 128 + n / 64 % 64, 128 + n % 64]

def utf8Bytes (l : List Char) : List Nat := (l.map utf8Char).flatten

def not32 (x : Nat) : Nat := 4294967295 - x % 4294967296

def rotl32 (x s : Nat) : Nat :=
  ((x <<< s) % 4294967296) ||| (x >>> (32 - s))

def md5K : List Nat :=
  [0xd76aa478, 0xe8c7b756, 0x242070db, 0xc1bdceee,
   0xf57c0faf, 0x4787c62a, 0xa8304613, 0xfd469501,
   0x698098d8, 0x8b44f7af, 0xffff5bb1, 0x895cd7be,
   0x6b901122, 0xfd987193, 0xa679438e, 0x49b40821,
   0xf61e2562, 0xc040b340, 0x265e5a51, 0xe9b6c7aa,
   0xd62f105d, 0x02441453, 0xd8a1e681, 0xe7d3fbc8,
   0x21e1cde6, 0xc33707d6, 0xf4d50d87, 0x455a14ed,
   0xa9e3e905, 0xfcefa3f8, 0x676f02d9, 0x8d2a4c8a,
   0xfffa3942, 0x8771f681, 0x6d9d6122, 0xfde5380c,
   0xa4beea44, 0x4bdecfa9, 0xf6bb4b60, 0xbebfbc70,
   0x289b7ec6, 0xeaa127fa, 0xd4ef3085, 0x04881d05,
   0xd9d4d039, 0xe6db99e5, 0x1fa27cf8, 0xc4ac5665,
   0xf4292244, 0x432aff97, 0xab9423a7, 0xfc93a039,
   0x655b59c3, 0x8f0ccc92, 0xffeff47d, 0x85845dd1,
   0x6fa87e4f, 0xfe2ce6e0, 0xa3014314, 0x4e0811a1,
   0xf7537e82, 0xbd3af235, 0x2ad7d2bb, 0xeb86d391]

def md5S : List Nat :=
  [7, 12, 17, 22, 7, 12, 17, 22, 7, 12, 17, 22, 7, 12, 17, 22,
   5, 9, 14, 20, 5, 9, 14, 20, 5, 9, 14, 20, 5, 9, 14, 20,
   4, 11, 16, 23, 4, 11, 16, 23, 4, 11, 16, 23, 4, 11, 16, 23,
   6, 10, 15, 21, 6, 10, 15, 21, 6, 10, 15, 21, 6, 10, 15, 21]

def md5Round (M : List Nat) (st : Nat × Nat × Nat × Nat) (i : Nat) :
    Nat × Nat × Nat × Nat :=
  let (a, b, c, d) := st
  let fg : Nat × Nat :=
    if i < 16 then ((b &&& c) ||| (not32 b &&& d), i)
    else if i < 32 then ((d &&& b) ||| (not32 d &&& c), (5 * i + 1) % 16)
    else if i < 48 then (b ^^^ c ^^^ d, (3 * i + 5) % 16)
    else (c ^^^ (b ||| not32 d), (7 * i) % 16)
  let f := (fg.1 + a + md5K.getD i 0 + M.getD fg.2 0) % 4294967296
  (d, (b + rotl32 f (md5S.getD i 0)) % 4294967296, b, c)

def md5Chunk (st : Nat × Nat × Nat × Nat) (M : List Nat) :
    Nat × Nat × Nat × Nat :=
  let r := (List.range 64).foldl (md5Round M) st
  ((st.1 + r.1) % 4294967296, (st.2.1 + r.2.1) % 4294967296,
   (st.2.2.1 + r.2.2.1) % 4294967296, (st.2.2.2 + r.2.2.2) % 4294967296)

def leBytes (x : Nat) : Nat → List Nat
  | 0 => []
  | m + 1 => x % 256 :: leBytes (x / 256) m

def md5Pad (msg : List Nat) : List Nat :=
  let zeros := (119 - msg.length % 64) % 64
  msg ++ 128 :: List.replicate zeros 0 ++
    leBytes ((8 * msg.length) % 18446744073709551616) 8

def toChunks (l : List Nat) : List (List Nat) :=
  match l with
  | [] => []
  | x :: rest => (x :: rest).take 64 :: toChunks ((x :: rest).drop 64)
termination_by l.length
decreasing_by simp; omega

def chunkWords (chunk : List Nat) : List Nat :=
  (List.range 16).map (fun j =>
    chunk.getD (4 * j) 0 + 256 * chunk.getD (4 * j + 1) 0 +
      65536 * chunk.getD (4 * j + 2) 0 + 16777216 * chunk.getD (4 * j + 3) 0)

def md5Begin : Nat × Nat × Nat × Nat :=
  (0x67452301, 0xefcdab89, 0x98badcfe, 0x10325476)

def md5WordsOf (bytes : List Nat) : Nat × Nat × Nat × Nat :=
  (toChunks (md5Pad bytes)).foldl (fun st ch => md5Chunk st (chunkWords ch)) md5Begin

def md5Bytes (cs : List Char) : List Nat :=
  let w := md5WordsOf (utf8Bytes cs)
  leBytes w.1 4 ++ leBytes w.2.1 4 ++ leBytes w.2.2.1 4 ++ leBytes w.2.2.2 4

def hexDigit (n : Nat) : Char :=
  if n < 10 then Char.ofNat (48 + n) else Char.ofNat (87 + n)

def hexByteChars (b : Nat) : List Char := [hexDigit (b / 16 % 16), hexDigit (b % 16)]

/-- hashlib.md5(s.encode("utf-8")).hexdigest() as a list of characters. -/
def md5HexChars (s : String) : List Char :=
  ((md5Bytes s.data).map hexByteChars).flatten

def md5Hex (s : String) : String := String.mk (md5HexChars s)

/-! ## upload.py: hashed-filename test and diff classification -/

/-- os.path.basename for POSIX paths: everything after the last slash. -/
def osBasename (fn : String) : String :=
  String.mk ((fn.data.reverse.takeWhile (fun c => c ≠ '/')).reverse)

def isLowerHex (c : Char) : Bool :=
  ('0' ≤ c && c ≤ '9') || ('a' ≤ c && c ≤ 'f')

/-- Helper for the regex in upload.py line 29: walks a run of lowercase hex
characters that started just after a dot, counting its length, and succeeds
when the run is closed by a dot after 8 to 32 characters. -/
def hexRunClosed : List Char → Nat → Bool
  | [], _ => false
  | c :: rest, n =>
    if c = '.' then 8 ≤ n && n ≤ 32
    else isLowerHex c && hexRunClosed rest (n + 1)

def hasHashedChars : List Char → Bool
  | [] => false
  | c :: rest => (c = '.' && hexRunClosed rest 0) || hasHashedChars rest

/-- upload.py lines 29-42: bool(re.findall of a dot, 8 to 32 chars of
[a-f0-9], then a dot, applied to os.path.basename(fn)). -/
def hasHashedFilename (fn : String) : Bool :=
  hasHashedChars (osBasename fn).data

/-- What the classifier in upload_site (lines 187-226) decides for one local
entry: queue it as an UploadTask (the Bool is needs_hash_check), or skip it
without queueing. -/
inductive UploadAction where
  | queue (needsHashCheck : Bool)
  | skip
  deriving DecidableEq, Repr

/-- upload.py lines 201-226: the inventory uploaded_already maps keys to the
recorded Size.  A key that is absent or whose size changed is queued with
needs_hash_check False; otherwise a hashed filename is skipped and anything
else is queued with needs_hash_check True. -/
def classifyUpload (uploadedAlready : List (String × Nat)) (key : String)
    (size : Nat) : UploadAction :=
  match lookupS uploadedAlready key with
  | none => .queue false
  | some s =>
    if s ≠ size then .queue false
    else if hasHashedFilename key then .skip
    else .queue true

/-! ## upload.py: the transfer scheduler task protocol -/

/-- upload.py lines 46-61 (class UploadTask), without the local Path. -/
structure UploadTask where
  key : String
  size : Nat
  fileHash : Option String
  needsHashCheck : Bool
  deriving DecidableEq, Repr

/-- Outcome of the head_object probe in _upload_file_maybe: stored metadata,
a 404 ClientError, or any other ClientError code. -/
inductive ProbeResult where
  | found (metadata : List (String × String))
  | notFound
  | otherError (code : String)
  deriving DecidableEq, Repr

/-- The per-task outcome: skipped corresponds to the early return (False,
took) with no bytes uploaded; uploaded carries the label printed for the
task ("Updated" when needs_hash_check was set, else "Uploaded"). -/
inductive UploadOutcome where
  | skipped
  | uploaded (label : String)
  deriving DecidableEq, Repr

/-- upload.py lines 299-300: if not task.file_hash: task.set_file_hash().
The hash is computed at most once; an unset (None or empty) hash is
replaced by the freshly computed local hash. -/
def ensureHash (task : UploadTask) (localHash : String) : String :=
  match task.fileHash with
  | some h => if h = "" then localHash else h
  | none => localHash

/-- upload.py lines 297-356 (_upload_file_maybe).  The first component
records whether a head_object verification probe was issued (the code
reaches s3.head_object exactly when task.needs_hash_check is set).  The
Except models a ClientError with a non-404 code propagating out of the
task. -/
def uploadFileMaybe (task : UploadTask) (localHash : String)
    (probe : ProbeResult) : Bool × Except String UploadOutcome :=
  let fileHash := ensureHash task localHash
  if task.needsHashCheck then
    match probe with
    | .found metadata =>
      if lookupS metadata "filehash" = some fileHash then (true, .ok .skipped)
      else (true, .ok (.uploaded "Updated"))
    | .notFound => (true, .ok (.uploaded "Updated"))
    | .otherError code => (true, .error code)
  else (false, .ok (.uploaded "Uploaded"))

/-! ## upload.py: batch statistics (_start_uploads, lines 244-285) -/

structure UploadStats where
  uploadedCount : Nat
  notUploadedCount : Nat
  totalSizeUploaded : Nat
  deriving DecidableEq, Repr

/-- _start_uploads drains the futures: each result is was_uploaded.  The
accumulator total_size_uploaded is initialised to 0 at line 250 and is
never incremented before being returned at line 284. -/
def startUploadsStats (results : List Bool) : UploadStats :=
  let c := results.foldl
    (fun c wasUploaded =>
      if wasUploaded then (c.1 + 1, c.2) else (c.1, c.2 + 1))
    ((0 : Nat), (0 : Nat))
  { uploadedCount := c.1, notUploadedCount := c.2, totalSizeUploaded := 0 }

/-- upload.py lines 177-182 and 240: update_uploaded_stats appends each
batch's total_size_uploaded to total_size, and the final report prints
fmt_size(sum(total_size)). -/
def reportedUploadedSize (batches : List (List Bool)) : Nat :=
  (batches.map (fun b => (startUploadsStats b).totalSizeUploaded)).foldl
    (fun a x => a + x) 0

/-! ## upload.py: remote inventory listing (lines 156-168) -/

/-- One list_objects_v2 response: the Contents entries (key and Size) and
the IsTruncated flag.  A missing Contents field is the empty list. -/
structure ListPage where
  contents : List (String × Nat)
  isTruncated : Bool
  deriving DecidableEq, Repr

def insertPage (acc : List (String × Nat)) (kv : String × Nat) :
    List (String × Nat) :=
  dictInsert acc kv.1 kv.2

/-- upload.py lines 156-168: insert every object of the page into
uploaded_already, then follow NextContinuationToken while IsTruncated. -/
def fetchAll : List ListPage → List (String × Nat) → List (String × Nat)
  | [], acc => acc
  | pg :: rest, acc =>
    let acc2 := pg.contents.foldl insertPage acc
    if pg.isTruncated then fetchAll rest acc2 else acc2

/-- A well-formed page sequence as the store serves it: every page except
the last reports IsTruncated, and the last page does not. -/
def pagesWF : List ListPage → Bool
  | [] => true
  | pg :: rest =>
    (if rest.isEmpty then !pg.isTruncated else pg.isTruncated) && pagesWF rest

/-! ## kumadownloader.py: the persistent etag cache -/

/-- kumadownloader.py lines 25-32, one line at a time: etag, rel_path =
line.split() into the downloaded_etags dict.  A line that does not split
into exactly two fields raises ValueError (modelled as Except.error);
only a missing file is absorbed (the FileNotFoundError handler). -/
def parseCacheLines : List String → List (String × String) →
    Except String (List (String × String))
  | [], acc => .ok acc
  | line :: rest, acc =>
    match splitWS line.data with
    | [a, b] => parseCacheLines rest (dictInsert acc (String.mk a) (String.mk b))
    | _ => .error "ValueError: unpacking line.split()"

/-- The whole load step: none models an absent cache file (caught
FileNotFoundError, empty cache); some lines models the file's lines
(each line still carrying its trailing newline). -/
def loadEtagsCache : Option (List String) →
    Except String (List (String × String))
  | none => .ok []
  | some lines => parseCacheLines lines []

/-- kumadownloader.py lines 101-104: one etag TAB rel_path newline line per
dict item, in dict iteration order. -/
def serializeCache (d : List (String × String)) : List String :=
  d.map (fun ep => String.mk (ep.1.data ++ '\t' :: (ep.2.data ++ ['\n'])))

/-- A token a cache line can round-trip: non-empty and free of
whitespace. -/
def goodToken (s : String) : Prop :=
  s.data ≠ [] ∧ ∀ c ∈ s.data, isPySpace c = false

instance (s : String) : Decidable (goodToken s) := by
  unfold goodToken; infer_instance

/-! ## kumadownloader.py: the download run -/

/-- kumadownloader.py lines 56-59: keep the objects whose ETag is not
already a key of downloaded_etags, as a key to etag dict. -/
def buildTodo (objs : List (String × String))
    (downloadedEtags : List (String × String)) : List (String × String) :=
  objs.foldl
    (fun todo kv =>
      if (lookupS downloadedEtags kv.2).isSome then todo
      else dictInsert todo kv.1 kv.2)
    []

/-- One list_objects_v2 page of the kuma bucket: Contents as (Key, ETag). -/
structure KPage where
  contents : List (String × String)
  isTruncated : Bool
  deriving DecidableEq, Repr

/-- Observable file-system effects of a run: a worker-pool batch download,
or an open(file, "w") that truncates the named file and writes the given
lines. -/
inductive KEvent where
  | downloadBatch (todo : List (String × String))
  | openWrite (file : String) (lines : List String)
  deriving DecidableEq, Repr

def isBatchEvent : KEvent → Bool
  | .downloadBatch _ => true
  | .openWrite _ _ => false

def isCacheWriteEvent : KEvent → Bool
  | .openWrite file _ => file == "_etags_cache.txt"
  | .downloadBatch _ => false

/-- The page loop of download_kuma_s3_bucket (lines 45-86), parameterised
by the relative path each downloaded key ends up at (the path normalizer
and filesystem are modelled separately).  Returns the emitted events and
the accumulated new_etags dict.  Note the loop tests ETags against the
cache loaded at start (downloaded_etags), not against new_etags. -/
def kumaLoop (relPathOf : String → String) :
    List KPage → List (String × String) → List (String × String) →
    List KEvent × List (String × String)
  | [], _, newEtags => ([], newEtags)
  | pg :: rest, cache, newEtags =>
    let todo := buildTodo pg.contents cache
    let stepEvents : List KEvent × List (String × String) :=
      if todo.isEmpty then ([], newEtags)
      else
        let done := todo.foldl
          (fun acc kv => dictInsert acc kv.2 (relPathOf kv.1)) []
        ([.downloadBatch todo], dictUpdate newEtags done)
    if pg.isTruncated then
      let tail := kumaLoop relPathOf rest cache stepEvents.2
      (stepEvents.1 ++ tail.1, tail.2)
    else stepEvents

/-- kumadownloader.py lines 88-108 (the finally block): when new_etags is
non-empty, write the new files log (open new_files_file "w", one rel_path
per line) and then rewrite the whole cache file (open etags_cache_file
"w", every merged item).  Nothing is written during the loop. -/
def kumaRun (relPathOf : String → String) (pages : List KPage)
    (cache : List (String × String)) : List KEvent :=
  let r := kumaLoop relPathOf pages cache []
  if r.2.isEmpty then r.1
  else
    r.1 ++
      [.openWrite "_new_files.txt" (r.2.map (fun ep => ep.2 ++ "\n")),
       .openWrite "_etags_cache.txt" (serializeCache (dictUpdate cache r.2))]

/-! ## main.py / kumadownloader.py: the kumadownload call boundary -/

/-- The formal parameters of download_kuma_s3_bucket
(kumadownloader.py line 13): destination and s3url only. -/
def downloadKumaS3BucketParams : List String := ["destination", "s3url"]

/-- The keyword arguments main.py lines 106-112 passes beyond the
positional destination and s3url. -/
def kumadownloadExtraKwargs : List String :=
  ["searchfilter", "check_for_existence", "refresh"]

/-- Python call binding succeeds only if every keyword argument names a
formal parameter of the callee. -/
def kwargsAllAccepted (paramNames kwargs : List String) : Bool :=
  kwargs.all (fun k => paramNames.contains k)

/-! ## kumadownloader.py: path normalization -/

/-- kumadownloader.py lines 152-155: a directory segment longer than 100
characters is replaced by the first 12 hexdigest characters of its MD5. -/
def normalizeDirPart (part : String) : String :=
  if part.length > 100 then String.mk ((md5HexChars part).take 12) else part

/-- pathlib suffix support: index of the last dot of the component. -/
def lastDotIdx (l : List Char) : Option Nat :=
  (List.range l.length).foldl
    (fun acc i => if l.getD i ' ' = '.' then some i else acc) none

/-- pathlib suffix: the final component's extension, dot included, when
the last dot is neither the first nor the last character. -/
def pathSuffix (name : String) : String :=
  match lastDotIdx name.data with
  | none => ""
  | some i =>
    if 0 < i && i + 1 < name.data.length then String.mk (name.data.drop i)
    else ""

/-- kumadownloader.py lines 205-214: a final component longer than
too_long_name = 100 characters becomes the first 12 hexdigest characters
of the MD5 of the whole original name, with the original suffix
appended. -/
def normalizeName (name : String) : String :=
  if name.length > 100 then
    String.mk ((md5HexChars name).take 12 ++ (pathSuffix name).data)
  else name

/-! ## Supporting lemmas -/

theorem lookupS_dictInsert_self {α : Type} (d : List (String × α)) (k : String)
    (v : α) : lookupS (dictInsert d k v) k = some v := by
  induction d with
  | nil => simp [dictInsert, lookupS]
  | cons hd tl ih =>
    obtain ⟨a, b⟩ := hd
    by_cases h : a = k
    · simp [dictInsert, lookupS, h]
    · simp [dictInsert, lookupS, h, ih]

theorem lookupS_dictInsert_ne {α : Type} (d : List (String × α))
    (key k : String) (v : α) (h : k ≠ key) :
    lookupS (dictInsert d key v) k = lookupS d k := by
  induction d with
  | nil => simp [dictInsert, lookupS, Ne.symm h]
  | cons hd tl ih =>
    obtain ⟨a, b⟩ := hd
    by_cases ha : a = key
    · subst ha
      simp [dictInsert, lookupS, Ne.symm h]
    · simp [dictInsert, lookupS, ha, ih]

theorem isSome_lookupS_dictInsert {α : Type} (d : List (String × α))
    (key k : String) (v : α) (h : (lookupS d k).isSome = true) :
    (lookupS (dictInsert d key v) k).isSome = true := by
  by_cases hk : k = key
  · subst hk; simp [lookupS_dictInsert_self]
  · rw [lookupS_dictInsert_ne d key k v hk]; exact h

theorem mem_keys_dictInsert {α : Type} (d : List (String × α))
    (key k : String) (v : α) :
    k ∈ (dictInsert d key v).map Prod.fst ↔
      k ∈ d.map Prod.fst ∨ k = key := by
  induction d with
  | nil => simp [dictInsert]
  | cons hd tl ih =>
    obtain ⟨a, b⟩ := hd
    by_cases ha : a = key
    · subst ha
      simp [dictInsert]
      tauto
    · simp [dictInsert, ha, ih]
      tauto

theorem nodup_keys_dictInsert {α : Type} (d : List (String × α))
    (key : String) (v : α) (h : (d.map Prod.fst).Nodup) :
    ((dictInsert d key v).map Prod.fst).Nodup := by
  induction d with
  | nil => simp [dictInsert]
  | cons hd tl ih =>
    obtain ⟨a, b⟩ := hd
    simp only [List.map_cons, List.nodup_cons] at h
    by_cases ha : a = key
    · subst ha
      simpa [dictInsert] using h
    · have htail := ih h.2
      have hnotmem : a ∉ (dictInsert tl key v).map Prod.fst := by
        intro hmem
        rcases (mem_keys_dictInsert tl key a v).1 hmem with h1 | h1
        · exact h.1 h1
        · exact ha h1
      simp [dictInsert, ha, List.nodup_cons, hnotmem, htail]

/-- Appending a binding with a fresh key is a plain append. -/
theorem dictInsert_of_lookup_none {α : Type} (d : List (String × α))
    (key : String) (v : α) (h : lookupS d key = none) :
    dictInsert d key v = d ++ [(key, v)] := by
  induction d with
  | nil => simp [dictInsert]
  | cons hd tl ih =>
    obtain ⟨a, b⟩ := hd
    by_cases ha : a = key
    · simp [lookupS, ha] at h
    · simp only [lookupS, ha, if_neg] at h
      simp [dictInsert, ha, ih h]

theorem lookupS_append {α : Type} (d1 d2 : List (String × α)) (k : String) :
    lookupS (d1 ++ d2) k =
      match lookupS d1 k with
      | some v => some v
      | none => lookupS d2 k := by
  induction d1 with
  | nil => simp [lookupS]
  | cons hd tl ih =>
    obtain ⟨a, b⟩ := hd
    by_cases ha : a = k
    · simp [lookupS, ha]
    · simp [lookupS, ha, ih]

theorem isEmpty_false_of_ne_nil {α : Type} (l : List α) (h : l ≠ []) :
    l.isEmpty = false := by
  cases l with
  | nil => exact absurd rfl h
  | cons a t => rfl

theorem splitWSAux_accum (e : List Char) : ∀ (l cur : List Char),
    (∀ c ∈ e, isPySpace c = false) →
    splitWSAux (e ++ l) cur = splitWSAux l (e.reverse ++ cur) := by
  induction e with
  | nil => intro l cur he; simp
  | cons c e ih =>
    intro l cur he
    have hc : isPySpace c = false := he c (by simp)
    have he2 : ∀ x ∈ e, isPySpace x = false := fun x hx => he x (by simp [hx])
    simp only [List.cons_append, splitWSAux, hc, Bool.false_eq_true, if_false]
    show splitWSAux (e ++ l) (c :: cur) = splitWSAux l ((c :: e).reverse ++ cur)
    rw [ih l (c :: cur) he2]
    simp

theorem splitWS_two_tokens (e p : List Char)
    (hene : e ≠ []) (hpne : p ≠ [])
    (he : ∀ c ∈ e, isPySpace c = false)
    (hp : ∀ c ∈ p, isPySpace c = false) :
    splitWS (e ++ '\t' :: (p ++ ['\n'])) = [e, p] := by
  have htab : isPySpace '\t' = true := by decide
  have hnl : isPySpace '\n' = true := by decide
  have hrev := isEmpty_false_of_ne_nil (e.reverse ++ [])
    (by intro hh; apply hene; simpa using hh)
  have hrevp := isEmpty_false_of_ne_nil (p.reverse ++ [])
    (by intro hh; apply hpne; simpa using hh)
  unfold splitWS
  rw [splitWSAux_accum e _ [] he]
  simp only [splitWSAux, htab, hrev, if_true, Bool.false_eq_true, if_false]
  rw [splitWSAux_accum p _ [] hp]
  simp [splitWSAux, hnl, hrevp]
  exact hpne

theorem leBytes_length (n : Nat) : ∀ x, (leBytes x n).length = n := by
  induction n with
  | zero => intro x; rfl
  | succ m ih => intro x; simp [leBytes, ih]

theorem md5Bytes_length (cs : List Char) : (md5Bytes cs).length = 16 := by
  simp [md5Bytes, leBytes_length]

theorem flatten_map_hexByteChars_length (l : List Nat) :
    ((l.map hexByteChars).flatten).length = 2 * l.length := by
  induction l with
  | nil => simp
  | cons a t ih => simp [hexByteChars, ih]; omega

theorem md5HexChars_length (s : String) : (md5HexChars s).length = 32 := by
  unfold md5HexChars
  rw [flatten_map_hexByteChars_length, md5Bytes_length]

theorem length_mkString (l : List Char) : (String.mk l).length = l.length := rfl

theorem normalizeDirPart_length_of_long (part : String)
    (h : 100 < part.length) : (normalizeDirPart part).length = 12 := by
  rw [normalizeDirPart, if_pos h, length_mkString, List.length_take,
    md5HexChars_length]
  omega

theorem normalizeName_length_of_long (name : String)
    (h : 100 < name.length) :
    (normalizeName name).length = 12 + (pathSuffix name).length := by
  rw [normalizeName, if_pos h, length_mkString, List.length_append,
    List.length_take, md5HexChars_length]
  have hmin : (12 : Nat) ⊓ 32 = 12 := by omega
  rw [hmin]
  rfl

theorem parseCacheLines_head_bad (l : String) (rest : List String)
    (acc : List (String × String)) (h : (splitWS l.data).length ≠ 2) :
    parseCacheLines (l :: rest) acc =
      .error "ValueError: unpacking line.split()" := by
  cases hsp : splitWS l.data with
  | nil => simp [parseCacheLines, hsp]
  | cons a t =>
    cases t with
    | nil => simp [parseCacheLines, hsp]
    | cons b t2 =>
      cases t2 with
      | nil => exact absurd (by rw [hsp]; rfl) h
      | cons c t3 => simp [parseCacheLines, hsp]

theorem parseCacheLines_ok_of_all_two (lines : List String) :
    ∀ acc, (∀ line ∈ lines, (splitWS line.data).length = 2) →
    ∃ d, parseCacheLines lines acc = .ok d := by
  induction lines with
  | nil => intro acc _; exact ⟨acc, rfl⟩
  | cons l rest ih =>
    intro acc h
    obtain ⟨a, b, hab⟩ := List.length_eq_two.mp (h l (by simp))
    rw [show parseCacheLines (l :: rest) acc =
        parseCacheLines rest (dictInsert acc (String.mk a) (String.mk b)) by
      simp [parseCacheLines, hab]]
    exact ih _ (fun x hx => h x (by simp [hx]))

theorem parseCacheLines_error_of_bad (lines : List String) :
    ∀ acc line, line ∈ lines → (splitWS line.data).length ≠ 2 →
    ∃ e, parseCacheLines lines acc = .error e := by
  induction lines with
  | nil => intro acc line hmem _; exact absurd hmem (by simp)
  | cons l rest ih =>
    intro acc line hmem hbad
    by_cases h2 : (splitWS l.data).length = 2
    · obtain ⟨a, b, hab⟩ := List.length_eq_two.mp h2
      rcases List.mem_cons.mp hmem with rfl | hmem2
      · exact absurd h2 hbad
      · rw [show parseCacheLines (l :: rest) acc =
            parseCacheLines rest (dictInsert acc (String.mk a) (String.mk b)) by
          simp [parseCacheLines, hab]]
        exact ih _ line hmem2 hbad
    · exact ⟨_, parseCacheLines_head_bad l rest acc h2⟩

theorem parseCacheLines_serializeCache (d : List (String × String)) :
    ∀ acc, (∀ ep ∈ d, goodToken ep.1 ∧ goodToken ep.2) →
    parseCacheLines (serializeCache d) acc =
      .ok (d.foldl (fun a ep => dictInsert a ep.1 ep.2) acc) := by
  induction d with
  | nil => intro acc _; rfl
  | cons ep rest ih =>
    intro acc h
    obtain ⟨⟨he1, he2⟩, hp1, hp2⟩ := h ep (by simp)
    have hsp : splitWS (String.mk
        (ep.1.data ++ '\t' :: (ep.2.data ++ ['\n']))).data =
        [ep.1.data, ep.2.data] :=
      splitWS_two_tokens ep.1.data ep.2.data he1 hp1 he2 hp2
    simp only [serializeCache, List.map_cons, parseCacheLines, hsp,
      List.foldl_cons]
    exact ih _ (fun x hx => h x (by simp [hx]))

theorem foldl_dictInsert_eq_append (d : List (String × String)) :
    ∀ acc, (∀ ep ∈ d, lookupS acc ep.1 = none) → (d.map Prod.fst).Nodup →
    d.foldl (fun a ep => dictInsert a ep.1 ep.2) acc = acc ++ d := by
  induction d with
  | nil => intro acc _ _; simp
  | cons ep rest ih =>
    intro acc h hnd
    simp only [List.foldl_cons]
    rw [dictInsert_of_lookup_none acc ep.1 ep.2 (h ep (by simp))]
    have hfresh : ∀ x ∈ rest, lookupS (acc ++ [(ep.1, ep.2)]) x.1 = none := by
      intro x hx
      rw [lookupS_append, h x (by simp [hx])]
      have hx1 : x.1 ≠ ep.1 := by
        simp only [List.map_cons, List.nodup_cons] at hnd
        intro heq
        exact hnd.1 (heq ▸ List.mem_map_of_mem Prod.fst hx)
      simp [lookupS, Ne.symm hx1]
    have hnd2 : (rest.map Prod.fst).Nodup := by
      simp only [List.map_cons, List.nodup_cons] at hnd
      exact hnd.2
    rw [ih (acc ++ [(ep.1, ep.2)]) hfresh hnd2]
    simp

theorem fetchAll_cons (pg : ListPage) (rest : List ListPage)
    (acc : List (String × Nat)) :
    fetchAll (pg :: rest) acc =
      if pg.isTruncated then fetchAll rest (pg.contents.foldl insertPage acc)
      else pg.contents.foldl insertPage acc := rfl

theorem fetchAll_eq_foldl (pages : List ListPage) :
    ∀ acc, pagesWF pages = true →
    fetchAll pages acc =
      ((pages.map ListPage.contents).flatten).foldl insertPage acc := by
  induction pages with
  | nil => intro acc _; rfl
  | cons pg rest ih =>
    intro acc h
    simp only [pagesWF, Bool.and_eq_true] at h
    cases rest with
    | nil =>
      have hT : pg.isTruncated = false := by
        simpa using h.1
      rw [fetchAll_cons, hT]
      simp
    | cons q t =>
      have hT : pg.isTruncated = true := by
        simpa using h.1
      rw [fetchAll_cons, hT, if_pos rfl]
      rw [ih _ h.2]
      simp [List.foldl_append]

theorem nodup_keys_foldl_insertPage (l : List (String × Nat)) :
    ∀ acc, (acc.map Prod.fst).Nodup →
    ((l.foldl insertPage acc).map Prod.fst).Nodup := by
  induction l with
  | nil => intro acc h; exact h
  | cons kv t ih =>
    intro acc h
    exact ih _ (nodup_keys_dictInsert acc kv.1 kv.2 h)

theorem isSome_lookupS_foldl_insertPage (l : List (String × Nat)) :
    ∀ acc k, ((∃ v, (k, v) ∈ l) ∨ (lookupS acc k).isSome = true) →
    (lookupS (l.foldl insertPage acc) k).isSome = true := by
  induction l with
  | nil =>
    intro acc k h
    rcases h with ⟨v, hv⟩ | h
    · exact absurd hv (by simp)
    · exact h
  | cons kv t ih =>
    intro acc k h
    rcases h with ⟨v, hv⟩ | h
    · rcases List.mem_cons.mp hv with heq | hmem
      · apply ih
        right
        have hk : k = kv.1 := congrArg Prod.fst heq
        rw [hk]
        simp [insertPage, lookupS_dictInsert_self]
      · exact ih _ k (Or.inl ⟨v, hmem⟩)
    · exact ih _ k (Or.inr (isSome_lookupS_dictInsert acc kv.1 k kv.2 h))

theorem flatten_contents_nil (pages : List ListPage)
    (h : ∀ pg ∈ pages, pg.contents = []) :
    (pages.map ListPage.contents).flatten = [] := by
  induction pages with
  | nil => rfl
  | cons pg rest ih =>
    simp only [List.map_cons, List.flatten_cons]
    rw [h pg (by simp), ih (fun x hx => h x (by simp [hx]))]
    rfl

theorem kumaLoop_events_batch (relPathOf : String → String)
    (pages : List KPage) : ∀ cache newEtags,
    ∀ e ∈ (kumaLoop relPathOf pages cache newEtags).1,
      isBatchEvent e = true := by
  induction pages with
  | nil => intro cache newEtags e he; exact absurd he (by simp [kumaLoop])
  | cons pg rest ih =>
    intro cache newEtags e he
    simp only [kumaLoop] at he
    by_cases hE : (buildTodo pg.contents cache).isEmpty
    · simp only [hE, if_true] at he
      by_cases hT : pg.isTruncated
      · simp only [hT, if_true, List.nil_append] at he
        exact ih cache newEtags e he
      · simp only [hT, Bool.false_eq_true, if_false] at he
        exact absurd he (by simp)
    · simp only [hE, Bool.false_eq_true, if_false] at he
      by_cases hT : pg.isTruncated
      · simp only [hT, if_true, List.cons_append, List.nil_append,
          List.mem_cons] at he
        rcases he with rfl | he2
        · rfl
        · exact ih cache _ e he2
      · simp only [hT, Bool.false_eq_true, if_false, List.mem_singleton] at he
        subst he
        rfl

theorem startUploadsStats_totalSize (results : List Bool) :
    (startUploadsStats results).totalSizeUploaded = 0 := rfl

theorem reportedUploadedSize_aux (batches : List (List Bool)) :
    ∀ acc : Nat,
    (batches.map (fun b => (startUploadsStats b).totalSizeUploaded)).foldl
      (fun a x => a + x) acc = acc := by
  induction batches with
  | nil => intro acc; rfl
  | cons b t ih =>
    intro acc
    simp only [List.map_cons, List.foldl_cons, startUploadsStats_totalSize]
    exact ih acc

theorem startUploadsStats_count_aux (results : List Bool) :
    ∀ x y : Nat,
    results.foldl
      (fun c w => if w then (c.1 + 1, c.2) else (c.1, c.2 + 1)) (x, y) =
      (x + results.count true, y + results.count false) := by
  induction results with
  | nil => intro x y; simp
  | cons r t ih =>
    intro x y
    cases r
    · simp only [List.foldl_cons, Bool.false_eq_true, if_false, ih]
      rw [List.count_cons, List.count_cons]
      simp
      omega
    · simp only [List.foldl_cons, if_true, ih]
      rw [List.count_cons, List.count_cons]
      simp
      omega

/-! ## Claim theorems -/

/-- C1: Upload-direction diff classification.  For every local entry with
key K and size S: if K is absent from the remote inventory or present with
a different size, the entry is queued without the verification flag
(DefiniteTransfer); else if K's filename matches the hashed pattern it is
skipped without being queued; else it is queued with needs_hash_check set
(VerifyThenTransfer). -/
theorem upload_classification_per_claim
    (inv : List (String × Nat)) (key : String) (size : Nat) :
    (lookupS inv key = none → classifyUpload inv key size = .queue false)
    ∧ (∀ s, lookupS inv key = some s → s ≠ size →
        classifyUpload inv key size = .queue false)
    ∧ (lookupS inv key = some size → hasHashedFilename key = true →
        classifyUpload inv key size = .skip)
    ∧ (lookupS inv key = some size → hasHashedFilename key = false →
        classifyUpload inv key size = .queue true) := by
  refine ⟨?_, ?_, ?_, ?_⟩
  · intro h; simp [classifyUpload, h]
  · intro s h hne; simp [classifyUpload, h, hne]
  · intro h hh; simp [classifyUpload, h, hh]
  · intro h hh; simp [classifyUpload, h, hh]

/-- Witness for C1: one concrete instance of each of the four cases. -/
theorem upload_classification_per_claim_witness :
    classifyUpload [] "index.html" 500 = .queue false
    ∧ classifyUpload [("index.html", 499)] "index.html" 500 = .queue false
    ∧ classifyUpload [("app.abcdef12.js", 500)] "app.abcdef12.js" 500 = .skip
    ∧ classifyUpload [("index.html", 500)] "index.html" 500 = .queue true :=
  ⟨(upload_classification_per_claim [] "index.html" 500).1 (by decide),
   (upload_classification_per_claim [("index.html", 499)] "index.html"
      500).2.1 499 (by decide) (by decide),
   (upload_classification_per_claim [("app.abcdef12.js", 500)]
      "app.abcdef12.js" 500).2.2.1 (by decide) (by decide),
   (upload_classification_per_claim [("index.html", 500)] "index.html"
      500).2.2.2 (by decide) (by decide)⟩

/-- C2 (code bug): main.py invokes download_kuma_s3_bucket with the keyword
arguments searchfilter, check_for_existence and refresh, but the function
accepts only destination and s3url, so every kumadownload invocation fails
to bind (a TypeError).  Moreover the body's classification (buildTodo)
skips exactly the ETags already in the cache, with no refresh,
existence-check or search-filter handling at all: an entry whose ETag is
cached is dropped unconditionally. -/
theorem kumadownload_call_is_broken :
    kwargsAllAccepted downloadKumaS3BucketParams kumadownloadExtraKwargs = false
    ∧ buildTodo [("docs/a.json", "e1")] [("e1", "old/path")] = [] :=
  ⟨by decide, by decide⟩

/-- Counterexample for C3: a hashed-filename entry that is absent from the
remote inventory is queued as a DefiniteTransfer, not skipped. -/
theorem hashed_absent_is_queued_not_skipped :
    hasHashedFilename "app.abcdef12.js" = true
    ∧ classifyUpload [] "app.abcdef12.js" 500 = .queue false
    ∧ UploadAction.queue false ≠ UploadAction.skip :=
  ⟨by decide, by decide, by decide⟩

/-- C3 as amended: for every local entry whose filename matches the
content-hash pattern, the classifier produces Skip when the key is present
in the inventory with an unchanged size; in the remaining cases (absent,
or different size) it queues the entry, but always with needs_hash_check
false, so the scheduler never issues a head_object verification probe for
a hashed filename in any remote state. -/
theorem hashed_short_circuit_amended
    (inv : List (String × Nat)) (key : String) (size : Nat)
    (hh : hasHashedFilename key = true) :
    (lookupS inv key = some size → classifyUpload inv key size = .skip)
    ∧ (∀ b, classifyUpload inv key size = .queue b → b = false)
    ∧ (∀ b localHash probe, classifyUpload inv key size = .queue b →
        (uploadFileMaybe ⟨key, size, none, b⟩ localHash probe).1 = false) := by
  have hqueue : ∀ b : Bool, classifyUpload inv key size = .queue b →
      b = false := by
    intro b hq
    cases hcase : lookupS inv key with
    | none =>
      simp only [classifyUpload, hcase] at hq
      exact (UploadAction.queue.inj hq).symm
    | some s =>
      by_cases hs : s = size
      · subst hs
        simp only [classifyUpload, hcase, hh] at hq
        simp at hq
      · simp only [classifyUpload, hcase] at hq
        rw [if_pos hs] at hq
        exact (UploadAction.queue.inj hq).symm
  refine ⟨?_, hqueue, ?_⟩
  · intro h
    simp [classifyUpload, h, hh]
  · intro b localHash probe hq
    have hb := hqueue b hq
    subst hb
    rfl

/-- Witness for C3 as amended: the skip case and the no-probe case at
concrete inputs. -/
theorem hashed_short_circuit_amended_witness :
    classifyUpload [("app.abcdef12.js", 500)] "app.abcdef12.js" 500 = .skip
    ∧ (uploadFileMaybe ⟨"app.abcdef12.js", 500, none, false⟩ "h"
        .notFound).1 = false :=
  ⟨(hashed_short_circuit_amended [("app.abcdef12.js", 500)]
      "app.abcdef12.js" 500 (by decide)).1 (by decide),
   (hashed_short_circuit_amended [] "app.abcdef12.js" 500 (by decide)).2.2
      false "h" .notFound (by decide)⟩

/-- C4: VerifyThenTransfer execution.  For every task with the
verification flag set, the scheduler issues the probe; stored filehash
metadata equal to the freshly ensured local hash ends the task as a skip;
a 404 probe response is not an error and the task uploads; any other probe
error propagates; differing hashes upload and report "Updated". -/
theorem verify_then_transfer_execution
    (task : UploadTask) (localHash : String) (probe : ProbeResult)
    (hcheck : task.needsHashCheck = true) :
    (uploadFileMaybe task localHash probe).1 = true
    ∧ (∀ md, probe = .found md →
        lookupS md "filehash" = some (ensureHash task localHash) →
        (uploadFileMaybe task localHash probe).2 = .ok .skipped)
    ∧ (probe = .notFound →
        (uploadFileMaybe task localHash probe).2 = .ok (.uploaded "Updated"))
    ∧ (∀ code, probe = .otherError code →
        (uploadFileMaybe task localHash probe).2 = .error code)
    ∧ (∀ md, probe = .found md →
        lookupS md "filehash" ≠ some (ensureHash task localHash) →
        (uploadFileMaybe task localHash probe).2 =
          .ok (.uploaded "Updated")) := by
  refine ⟨?_, ?_, ?_, ?_, ?_⟩
  · cases probe with
    | found md =>
      by_cases hl : lookupS md "filehash" = some (ensureHash task localHash)
      · simp [uploadFileMaybe, hcheck, hl]
      · simp [uploadFileMaybe, hcheck, hl]
    | notFound => simp [uploadFileMaybe, hcheck]
    | otherError code => simp [uploadFileMaybe, hcheck]
  · intro md hp hl
    subst hp
    simp [uploadFileMaybe, hcheck, hl]
  · intro hp
    subst hp
    simp [uploadFileMaybe, hcheck]
  · intro code hp
    subst hp
    simp [uploadFileMaybe, hcheck]
  · intro md hp hl
    subst hp
    simp [uploadFileMaybe, hcheck, hl]

/-- Witness for C4: the four probe outcomes at a concrete task matching
the spec's scenario (index.html, 500 bytes, same size, not hash-tagged). -/
theorem verify_then_transfer_execution_witness :
    (uploadFileMaybe ⟨"index.html", 500, none, true⟩ "aaa"
        (.found [("filehash", "aaa")])).2 = .ok .skipped
    ∧ (uploadFileMaybe ⟨"index.html", 500, none, true⟩ "aaa"
        (.found [("filehash", "bbb")])).2 = .ok (.uploaded "Updated")
    ∧ (uploadFileMaybe ⟨"index.html", 500, none, true⟩ "aaa"
        .notFound).2 = .ok (.uploaded "Updated")
    ∧ (uploadFileMaybe ⟨"index.html", 500, none, true⟩ "aaa"
        (.otherError "AccessDenied")).2 = .error "AccessDenied"
    ∧ (uploadFileMaybe ⟨"index.html", 500, none, true⟩ "aaa"
        .notFound).1 = true :=
  ⟨(verify_then_transfer_execution ⟨"index.html", 500, none, true⟩ "aaa"
      (.found [("filehash", "aaa")]) rfl).2.1 _ rfl (by decide),
   (verify_then_transfer_execution ⟨"index.html", 500, none, true⟩ "aaa"
      (.found [("filehash", "bbb")]) rfl).2.2.2.2 _ rfl (by decide),
   (verify_then_transfer_execution ⟨"index.html", 500, none, true⟩ "aaa"
      .notFound rfl).2.2.1 rfl,
   (verify_then_transfer_execution ⟨"index.html", 500, none, true⟩ "aaa"
      (.otherError "AccessDenied") rfl).2.2.2.1 "AccessDenied" rfl,
   (verify_then_transfer_execution ⟨"index.html", 500, none, true⟩ "aaa"
      .notFound rfl).1⟩

/-- Counterexample for C5: a cache file whose only line does not split
into an etag and a relative path makes the load raise (propagated
ValueError), instead of proceeding with an empty cache. -/
theorem etag_cache_unparseable_line_raises :
    loadEtagsCache (some ["justoneword"]) =
      .error "ValueError: unpacking line.split()" := by
  have h : (splitWS ("justoneword" : String).data).length ≠ 2 := by decide
  exact parseCacheLines_head_bad "justoneword" [] [] h

/-- C5 as amended: an absent cache file is treated as an empty cache and
the run proceeds; a file whose lines all split into exactly two fields
loads successfully; but a file containing any line that does not split
into exactly two whitespace-separated fields raises (the ValueError from
unpacking line.split() is not caught), so that case is fatal. -/
theorem etag_cache_load_amended (lines : List String) :
    loadEtagsCache none = .ok []
    ∧ ((∀ line ∈ lines, (splitWS line.data).length = 2) →
        ∃ d, loadEtagsCache (some lines) = .ok d)
    ∧ (∀ line ∈ lines, (splitWS line.data).length ≠ 2 →
        ∃ e, loadEtagsCache (some lines) = .error e) := by
  refine ⟨rfl, ?_, ?_⟩
  · intro h
    exact parseCacheLines_ok_of_all_two lines [] h
  · intro line hmem hbad
    exact parseCacheLines_error_of_bad lines [] line hmem hbad

/-- Witness for C5 as amended: an absent file, a well-formed one-line
file, and a corrupt one-line file. -/
theorem etag_cache_load_amended_witness :
    loadEtagsCache none = .ok []
    ∧ (∃ d, loadEtagsCache (some ["e1\tp1\n"]) = .ok d)
    ∧ (∃ e, loadEtagsCache (some ["justoneword"]) = .error e) :=
  ⟨(etag_cache_load_amended []).1,
   (etag_cache_load_amended ["e1\tp1\n"]).2.1 (by decide),
   (etag_cache_load_amended ["justoneword"]).2.2 "justoneword" (by decide)
     (by decide)⟩

/-- Counterexample for C6: a run over two pages that both download files
flushes two batches but writes the cache file exactly once (at the end),
not at the end of each flushed batch. -/
theorem cache_not_rewritten_per_batch :
    (kumaRun id [⟨[("k1", "e1")], true⟩, ⟨[("k2", "e2")], false⟩]
        []).countP isBatchEvent = 2
    ∧ (kumaRun id [⟨[("k1", "e1")], true⟩, ⟨[("k2", "e2")], false⟩]
        []).countP isCacheWriteEvent = 1 :=
  ⟨by decide, by decide⟩

/-- C6 as amended: nothing is written during the page loop (all its
events are batch downloads); when the run discovered no new entries,
nothing is written at all; when it did, exactly two truncating writes
happen after the loop, in order: the new-files log is overwritten with
only this run's new relative paths, and then the cache file is
overwritten with the full merged map (loaded entries updated with the new
ones).  There is no per-batch cache flush and no atomic replacement. -/
theorem etag_cache_persistence_amended (relPathOf : String → String)
    (pages : List KPage) (cache : List (String × String)) :
    (∀ e ∈ (kumaLoop relPathOf pages cache []).1, isBatchEvent e = true)
    ∧ ((kumaLoop relPathOf pages cache []).2 = [] →
        kumaRun relPathOf pages cache = (kumaLoop relPathOf pages cache []).1)
    ∧ ((kumaLoop relPathOf pages cache []).2 ≠ [] →
        kumaRun relPathOf pages cache =
          (kumaLoop relPathOf pages cache []).1 ++
            [.openWrite "_new_files.txt"
              ((kumaLoop relPathOf pages cache []).2.map
                (fun ep => ep.2 ++ "\n")),
             .openWrite "_etags_cache.txt"
              (serializeCache
                (dictUpdate cache (kumaLoop relPathOf pages cache []).2))]) := by
  refine ⟨kumaLoop_events_batch relPathOf pages cache [], ?_, ?_⟩
  · intro h
    simp [kumaRun, h]
  · intro h
    simp [kumaRun, isEmpty_false_of_ne_nil _ h]

/-- Witness for C6 as amended: the two-page run writes the new-files log
and then the merged cache exactly once each, after both batches. -/
theorem etag_cache_persistence_amended_witness :
    kumaRun id [⟨[("k1", "e1")], true⟩, ⟨[("k2", "e2")], false⟩] [] =
      (kumaLoop id [⟨[("k1", "e1")], true⟩, ⟨[("k2", "e2")], false⟩]
          [] []).1 ++
        [.openWrite "_new_files.txt"
          ((kumaLoop id [⟨[("k1", "e1")], true⟩, ⟨[("k2", "e2")], false⟩]
              [] []).2.map (fun ep => ep.2 ++ "\n")),
         .openWrite "_etags_cache.txt"
          (serializeCache (dictUpdate []
            (kumaLoop id [⟨[("k1", "e1")], true⟩, ⟨[("k2", "e2")], false⟩]
              [] []).2))] :=
  (etag_cache_persistence_amended id
    [⟨[("k1", "e1")], true⟩, ⟨[("k2", "e2")], false⟩] []).2.2 (by decide)

/-- Counterexample for C7: two distinct pairs that share an etag collapse
on reload (the cache is keyed by etag), so the round-trip re-serializes
one pair, not two. -/
theorem cache_roundtrip_duplicate_etag :
    loadEtagsCache (some (serializeCache [("e", "a"), ("e", "b")])) =
      .ok [("e", "b")]
    ∧ (serializeCache [("e", "a"), ("e", "b")]).length = 2
    ∧ (serializeCache [("e", "b")]).length = 1 := by
  refine ⟨?_, rfl, rfl⟩
  rfl

/-- C7 as amended: for every list of pairs with pairwise-distinct etags
whose etags and paths are non-empty and free of whitespace, writing the
pairs to the cache file in any order, reloading, and re-serializing
reproduces exactly those N pairs as a set: the reload returns the pairs in
the on-disk order, with the original length and membership. -/
theorem cache_roundtrip_amended (d dp : List (String × String))
    (hgood : ∀ ep ∈ d, goodToken ep.1 ∧ goodToken ep.2)
    (hnodup : (d.map Prod.fst).Nodup)
    (hperm : d.Perm dp) :
    loadEtagsCache (some (serializeCache dp)) = .ok dp
    ∧ dp.length = d.length
    ∧ (∀ x, x ∈ dp ↔ x ∈ d) := by
  have hgoodp : ∀ ep ∈ dp, goodToken ep.1 ∧ goodToken ep.2 :=
    fun ep hep => hgood ep (hperm.mem_iff.mpr hep)
  have hnodupp : (dp.map Prod.fst).Nodup :=
    ((hperm.map Prod.fst).nodup_iff).mp hnodup
  refine ⟨?_, hperm.length_eq.symm,
    fun x => ⟨fun hx => hperm.mem_iff.mpr hx, fun hx => hperm.mem_iff.mp hx⟩⟩
  show parseCacheLines (serializeCache dp) [] = .ok dp
  rw [parseCacheLines_serializeCache dp [] hgoodp]
  rw [foldl_dictInsert_eq_append dp [] (fun ep _ => rfl) hnodupp]
  simp

/-- Witness for C7 as amended: two distinct pairs reloaded from a
permuted on-disk order. -/
theorem cache_roundtrip_amended_witness :
    loadEtagsCache (some (serializeCache [("e2", "b"), ("e1", "a")])) =
      .ok [("e2", "b"), ("e1", "a")] :=
  (cache_roundtrip_amended [("e1", "a"), ("e2", "b")]
    [("e2", "b"), ("e1", "a")] (by decide) (by decide) (by decide)).1

/-- Counterexample for C8: a final component of 101 characters whose
extension is 100 characters long normalizes to 12 digest characters plus
the full extension, 112 characters, exceeding the threshold of 100. -/
theorem normalized_name_exceeds_threshold :
    100 < (String.mk ('x' :: '.' :: List.replicate 99 'b')).length
    ∧ ¬(normalizeName
        (String.mk ('x' :: '.' :: List.replicate 99 'b'))).length ≤ 100 := by
  constructor
  · decide
  · intro hle
    rw [normalizeName_length_of_long _ (by decide)] at hle
    have hs : (pathSuffix
        (String.mk ('x' :: '.' :: List.replicate 99 'b'))).length = 100 := by
      decide
    omega

/-- C8 as amended: normalization is a pure function of the segment text
(hence deterministic across runs); an over-long directory segment becomes
exactly the 12-character digest (within the 100-character threshold); an
over-long final component becomes the 12-character digest plus the
original extension, so its length is 12 plus the extension's length,
which stays within the threshold exactly when the extension has at most
88 characters. -/
theorem normalization_amended (part name : String) :
    (100 < part.length → (normalizeDirPart part).length = 12)
    ∧ (100 < name.length →
        (normalizeName name).length = 12 + (pathSuffix name).length
        ∧ ((pathSuffix name).length ≤ 88 →
            (normalizeName name).length ≤ 100)) := by
  constructor
  · intro h
    exact normalizeDirPart_length_of_long part h
  · intro h
    have hlen := normalizeName_length_of_long name h
    exact ⟨hlen, fun hs => by rw [hlen]; omega⟩

/-- Witness for C8 as amended: a 101-character directory segment and a
101-character file name with a 3-character extension. -/
theorem normalization_amended_witness :
    (normalizeDirPart (String.mk (List.replicate 101 'a'))).length = 12
    ∧ (normalizeName
        (String.mk (List.replicate 98 'a' ++ ('.' :: ['j', 's'])))).length
        ≤ 100 :=
  ⟨(normalization_amended (String.mk (List.replicate 101 'a')) "").1
      (by decide),
   ((normalization_amended ""
      (String.mk (List.replicate 98 'a' ++ ('.' :: ['j', 's'])))).2
      (by decide)).2 (by decide)⟩

/-- C9: Pagination completeness.  For every well-formed page sequence
(the lister follows the continuation token while IsTruncated and stops at
the first page that is not truncated), the final mapping equals the fold
of every page's entries in order (so a later page's entry replaces an
earlier one for the same key), its keys carry no duplicates, every listed
key is present, and a listing with no content in any page yields the
empty mapping. -/
theorem pagination_completeness (pages : List ListPage)
    (h : pagesWF pages = true) :
    fetchAll pages [] =
      ((pages.map ListPage.contents).flatten).foldl insertPage []
    ∧ ((fetchAll pages []).map Prod.fst).Nodup
    ∧ (∀ kv ∈ (pages.map ListPage.contents).flatten,
        (lookupS (fetchAll pages []) kv.1).isSome = true)
    ∧ ((∀ pg ∈ pages, pg.contents = []) → fetchAll pages [] = []) := by
  have heq := fetchAll_eq_foldl pages [] h
  refine ⟨heq, ?_, ?_, ?_⟩
  · rw [heq]
    exact nodup_keys_foldl_insertPage _ [] (by simp)
  · intro kv hkv
    rw [heq]
    exact isSome_lookupS_foldl_insertPage _ [] kv.1 (Or.inl ⟨kv.2, hkv⟩)
  · intro hall
    rw [heq, flatten_contents_nil pages hall]
    rfl

/-- Witness for C9: a truncated page followed by a final page, where the
later page's entry for key a replaces the earlier one. -/
theorem pagination_completeness_witness :
    pagesWF [⟨[("a", 1)], true⟩, ⟨[("b", 2), ("a", 3)], false⟩] = true
    ∧ fetchAll [⟨[("a", 1)], true⟩, ⟨[("b", 2), ("a", 3)], false⟩] [] =
        ((([⟨[("a", 1)], true⟩, ⟨[("b", 2), ("a", 3)], false⟩] :
          List ListPage).map ListPage.contents).flatten).foldl insertPage [] :=
  ⟨by decide,
   (pagination_completeness
      [⟨[("a", 1)], true⟩, ⟨[("b", 2), ("a", 3)], false⟩] (by decide)).1⟩

/-- C10 (implicit): the total uploaded size reported at the end of an
upload run is 0 bytes regardless of how many files were actually
uploaded, because each batch's aggregation initialises its
total_size_uploaded accumulator to 0 and never adds any task's size to
it; the uploaded counter, by contrast, does track the uploads. -/
theorem uploaded_size_always_zero :
    (∀ batches : List (List Bool), reportedUploadedSize batches = 0)
    ∧ (∀ results : List Bool,
        (startUploadsStats results).uploadedCount = results.count true) := by
  constructor
  · intro batches
    exact reportedUploadedSize_aux batches 0
  · intro results
    show (results.foldl
      (fun c w => if w then (c.1 + 1, c.2) else (c.1, c.2 + 1))
      ((0 : Nat), (0 : Nat))).1 = results.count true
    rw [startUploadsStats_count_aux results 0 0]
    simp
